import Mathlib

/-!
Verification of the real-time streaming document Q&A system
(document chunking, vector index store, websocket server pipeline).

Python strings are modelled as `List Char`; the relevant Python string
methods (`str.split()`, `str.strip()`, `str.join`, `range`) are embedded
as executable Lean functions with Python's semantics.  Stateful
components (the FAISS-backed `VectorSearch`, the websocket handlers)
are embedded as explicit state-passing functions; the external
capabilities (base64 decoding, file reading / PDF page extraction,
the embedding model + FAISS nearest-neighbour call, the generative
completion stream) are parameters of the embedding, as they are
external collaborators of the specified core.  Similarity scores
(floats compared against a threshold) are modelled as rationals and
the float progress expressions `int(20 + (p+1)/total*50)` and
`int((i+1)/len*80)` as exact floored rational arithmetic.
-/

deriving instance DecidableEq for Except

namespace DocQA

/-! ### Embedded Python string operations -/

/-- Fuel-driven worker for `pySplit`; the fuel is an upper bound on the
length of the remaining input, so the `0, _ :: _` case is never reached
from `pySplit`.  Structural recursion keeps the function kernel-reducible. -/
def pySplitF : Nat → List Char → List (List Char)
  | _, [] => []
  | 0, _ :: _ => []
  | fuel+1, c :: rest =>
    if c.isWhitespace then pySplitF fuel rest
    else (c :: rest.takeWhile (fun d => !d.isWhitespace)) ::
      pySplitF fuel (rest.dropWhile (fun d => !d.isWhitespace))

/-- Python `str.split()` (no argument): split on runs of whitespace,
dropping empty tokens.  Embedded on `List Char`. -/
def pySplit (s : List Char) : List (List Char) := pySplitF s.length s

/-- Python `str.strip()`: drop leading and trailing whitespace. -/
def pyStrip (s : List Char) : List Char :=
  ((s.dropWhile Char.isWhitespace).reverse.dropWhile Char.isWhitespace).reverse

/-- Python `sep.join(words)`. -/
def pyJoin (sep : List Char) : List (List Char) → List Char
  | [] => []
  | [w] => w
  | w :: w2 :: ws => w ++ sep ++ pyJoin sep (w2 :: ws)

/-- Python `range(0, stop, step)` for a possibly negative or zero `step`:
`step = 0` raises `ValueError`; a negative `step` with `stop ≥ 0` yields
the empty range; a positive `step` yields the multiples of `step`
below `stop`. -/
def pyRange (stop : Nat) (step : Int) : Except String (List Nat) :=
  if step = 0 then .error "ValueError: range() arg 3 must not be zero"
  else if step < 0 then .ok []
  else .ok ((List.range ((stop + step.toNat - 1) / step.toNat)).map (fun j => j * step.toNat))

/-- Decimal representation of a natural number, as a `List Char`. -/
def natStr (n : Nat) : List Char := (Nat.repr n).toList

/-- Python `s.endswith(suffix)` on `List Char`. -/
def listEndsWith (s suffix : List Char) : Bool := suffix.isSuffixOf s

/-! ### Chunker (src/document_processor.py:149-160) -/

/-- One loop iteration of `DocumentProcessor._chunk_text`: take the window
`words[i : i + CHUNK_SIZE]`, join with single spaces, and keep the stripped
chunk if it is non-empty. -/
def windowChunk (words : List (List Char)) (cs : Nat) (i : Nat) : Option (List Char) :=
  let cw := (words.drop i).take cs
  let chunk := pyJoin [' '] cw
  if pyStrip chunk = [] then none else some (pyStrip chunk)

/-- `DocumentProcessor._chunk_text`:
`words = text.split()`; `for i in range(0, len(words), CHUNK_SIZE - CHUNK_OVERLAP)`
collect the non-empty stripped window joins.  `CHUNK_SIZE` and
`CHUNK_OVERLAP` are the `cs` and `ov` parameters (module config values in
the source); the step `CHUNK_SIZE - CHUNK_OVERLAP` is Python integer
subtraction, hence computed in `Int`. -/
def chunkText (cs ov : Nat) (text : List Char) : Except String (List (List Char)) :=
  let words := pySplit text
  match pyRange words.length ((cs : Int) - (ov : Int)) with
  | .error e => .error e
  | .ok idxs => .ok (idxs.filterMap (windowChunk words cs))

/-! ### Data model (src/vector_search.py) -/

/-- One entry of `self.documents` (vector_search.py:90-95). -/
structure IndexMeta where
  filename : List Char
  chunk_id : Nat
  text : List Char
deriving DecidableEq

/-- The mutable state of `VectorSearch`: the FAISS index reduced to its
vector count `ntotal`, plus the parallel metadata list `documents`. -/
structure VectorStoreState where
  ntotal : Nat
  documents : List IndexMeta
deriving DecidableEq

/-- One search result tuple `(text, score, {filename, chunk_id})`
(vector_search.py:147-150).  The float similarity score is modelled
as a rational. -/
structure SearchHit where
  text : List Char
  score : ℚ
  filename : List Char
  chunk_id : Nat
deriving DecidableEq

/-- The outbound JSON events of the wire protocol, with the fields the
claims are about. -/
inductive Event where
  | connection_status (port : Nat)
  | error (msg : List Char)
  | upload_complete (filename : List Char) (size : Nat)
  | processing_status (status : List Char) (progress : Nat)
  | processing_complete (text : List Char) (chunks : List (List Char)) (progress : Nat)
  | embedding_status (status : List Char) (progress : Nat)
  | embedding_complete (progress : Nat) (chunks_added : Nat)
  | search_status (query : List Char)
  | search_results (results : List SearchHit) (query : List Char) (total_found : Nat)
  | search_results_no_docs
  | ai_status (question : List Char)
  | ai_chunk (content : List Char)
  | ai_complete (response : List Char) (question : List Char) (context_used : Bool)
  | stats (total_documents : Nat) (index_size : Nat) (port : Nat)
  | test_response (port : Nat)
deriving DecidableEq

/-! ### VectorSearch operations (src/vector_search.py) -/

/-- `VectorSearch.create_index` (vector_search.py:39-43): a fresh empty
index with an empty metadata list. -/
def create_index : VectorStoreState := { ntotal := 0, documents := [] }

/-- `VectorSearch.load_index` (vector_search.py:23-37).  The filesystem
reads are external: `readResult = some st` models both files parsing
successfully to `st`, `none` models `faiss.read_index` or `json.load`
raising (corrupt or unreadable persisted data), in which case the
exception handler falls back to `create_index`. -/
def load_index (indexFileExists docsFileExists : Bool)
    (readResult : Option VectorStoreState) : VectorStoreState :=
  if indexFileExists && docsFileExists then
    match readResult with
    | some st => st
    | none => create_index
  else create_index

/-- `VectorSearch.get_stats` (vector_search.py:176-182):
`total_documents = len(self.documents)`, `index_size = self.index.ntotal`. -/
def get_stats (s : VectorStoreState) : Nat × Nat := (s.documents.length, s.ntotal)

/-- `VectorSearch.add_document` (vector_search.py:58-111), success path:
one embedding per chunk (one progress event each, `int((i+1)/len*80)`
embedded as exact floored arithmetic), `index.add` of the normalized
batch (`ntotal` grows by the batch size), one metadata append per chunk,
then the `embedding_complete` event.  For an empty chunk list the loop
body never runs and `faiss.normalize_L2` raises on the resulting empty
array; the `except` handler reports an error event and the state is
unchanged. -/
def addDocument (s : VectorStoreState) (filename : List Char)
    (chunks : List (List Char)) : VectorStoreState × List Event :=
  let startEv := Event.embedding_status "Creating embeddings".toList 0
  if chunks.isEmpty then
    (s, [startEv, Event.error "Error creating embeddings: ...".toList])
  else
    let n := chunks.length
    let progressEvs := (List.range n).map (fun i =>
      Event.embedding_status
        (("Processing chunk " ++ Nat.repr (i+1) ++ "/" ++ Nat.repr n).toList)
        (((i+1) * 80) / n))
    let s2 : VectorStoreState :=
      { ntotal := s.ntotal + n,
        documents := s.documents ++ chunks.enum.map (fun p => ⟨filename, p.1, p.2⟩) }
    (s2, startEv :: progressEvs ++ [Event.embedding_complete 100 n])

/-- The result-building loop of `VectorSearch.search`
(vector_search.py:143-150): keep a candidate `(score, idx)` only when
`idx >= 0 and idx < len(self.documents) and score >= SIMILARITY_THRESHOLD`,
and look its metadata up at position `idx`. -/
def searchFilter (docs : List IndexMeta) (threshold : ℚ) :
    List (ℚ × Int) → List SearchHit
  | [] => []
  | (score, idx) :: rest =>
    if h : 0 ≤ idx ∧ idx.toNat < docs.length ∧ threshold ≤ score then
      let doc := docs.get ⟨idx.toNat, h.2.1⟩
      { text := doc.text, score := score,
        filename := doc.filename, chunk_id := doc.chunk_id } ::
        searchFilter docs threshold rest
    else searchFilter docs threshold rest

/-- `VectorSearch.search` (vector_search.py:113-174) given the raw FAISS
output `scores`/`indices` for the query (the nearest-neighbour math is an
external capability; FAISS returns exactly the requested
`min(k, len(documents))` candidates per query, padding missing candidates
with index `-1`). -/
def searchWith (s : VectorStoreState) (threshold : ℚ) (query : List Char)
    (scores : List ℚ) (indices : List Int) : List SearchHit × List Event :=
  if s.documents.length = 0 then
    ([], [Event.search_results_no_docs])
  else
    let results := searchFilter s.documents threshold (scores.zip indices)
    (results,
      [Event.search_status query,
       Event.search_results results query results.length])

/-! ### Server context: configuration plus external capabilities -/

/-- Configuration values (src/config.py) and the external capabilities the
handlers call: base64 decoding, file reads keyed by filename, the
embedding-plus-FAISS nearest-neighbour search keyed by query and requested
candidate count, and the generative completion stream keyed by question
and context. -/
structure ServerCtx where
  chunk_size : Nat
  chunk_overlap : Nat
  similarity_threshold : ℚ
  max_search_results : Nat
  max_file_size : Nat
  allowed_extensions : List (List Char)
  port : Nat
  b64decode : List Char → List Nat
  readTextFile : List Char → List Char
  readPdfPages : List Char → List (List Char)
  nnSearch : List Char → Nat → List ℚ × List Int
  generate : List Char → List Char → List (List Char)

/-- `VectorSearch.search` at the call sites: default `k = MAX_SEARCH_RESULTS`,
FAISS asked for `min(k, len(documents))` candidates. -/
def vectorSearch (ctx : ServerCtx) (s : VectorStoreState) (query : List Char) :
    List SearchHit × List Event :=
  let raw := ctx.nnSearch query (min ctx.max_search_results s.documents.length)
  searchWith s ctx.similarity_threshold query raw.1 raw.2

/-! ### Gemini client (src/gemini_client.py:11-75) -/

/-- `GeminiClient.stream_response`: `ai_status`, one `ai_chunk` per truthy
streamed fragment, then `ai_complete` with the concatenated response and
`context_used = bool(context)`.  `genParts` is the fragment stream
produced by the external generation capability. -/
def streamResponse (question context : List Char)
    (genParts : List (List Char)) : List Event :=
  let parts := genParts.filter (fun c => !c.isEmpty)
  Event.ai_status question ::
    parts.map Event.ai_chunk ++
    [Event.ai_complete parts.flatten question (!context.isEmpty)]

/-! ### Document processor (src/document_processor.py) -/

/-- `DocumentProcessor._process_text` (document_processor.py:109-147),
with the file content (read by the external filesystem capability) given.
A `ValueError` escaping `_chunk_text` is caught by the surrounding
`except` and reported as an error event. -/
def processText (content : List Char) (cs ov : Nat) : List Event :=
  Event.processing_status "Reading text file".toList 30 ::
  Event.processing_status "Text file loaded".toList 60 ::
  match chunkText cs ov content with
  | .ok chunks =>
    [Event.processing_status
      (("Created " ++ Nat.repr chunks.length ++ " text chunks").toList) 80,
     Event.processing_complete content chunks 100]
  | .error _ => [Event.error "Error processing text file: ...".toList]

/-- `DocumentProcessor._process_pdf` (document_processor.py:42-107) with
the per-page extracted texts given.  `full_text` accumulates each page
text plus a newline; the per-page progress `int(20 + (p+1)/total*50)` is
embedded as exact floored arithmetic. -/
def processPdf (pages : List (List Char)) (cs ov : Nat) : List Event :=
  let total := pages.length
  let fullText := (pages.map (fun pg => pg ++ ['\n'])).flatten
  Event.processing_status "Opening PDF file".toList 10 ::
  Event.processing_status (("Found " ++ Nat.repr total ++ " pages").toList) 20 ::
  ((List.range total).map (fun p =>
    Event.processing_status
      (("Extracting text from page " ++ Nat.repr (p+1) ++ "/" ++ Nat.repr total).toList)
      (20 + ((p+1) * 50) / total)) ++
  Event.processing_status "Text extraction completed".toList 70 ::
  match chunkText cs ov fullText with
  | .ok chunks =>
    [Event.processing_status
      (("Created " ++ Nat.repr chunks.length ++ " text chunks").toList) 80,
     Event.processing_complete fullText chunks 100]
  | .error _ => [Event.error "Error processing PDF: ...".toList])

/-- `DocumentProcessor.process_file` (document_processor.py:12-40):
initial progress-0 event, then dispatch on the file extension. -/
def processFile (filePath : List Char) (pages : List (List Char))
    (content : List Char) (cs ov : Nat) : List Event :=
  Event.processing_status "Starting document processing".toList 0 ::
  (if listEndsWith filePath ".pdf".toList then processPdf pages cs ov
   else if listEndsWith filePath ".txt".toList then processText content cs ov
   else [Event.error "Unsupported file type".toList])

/-! ### Websocket upload handlers -/

/-- The `async for update in process_file` relay loop shared by
working_server.py:135-141 and websocket_server_8080.py:113-120: forward
every update, and after forwarding a `processing_complete` carrying a
non-empty chunk list, run `add_document` on it. -/
def relayProcessEvents (s : VectorStoreState) (filename : List Char) :
    List Event → VectorStoreState × List Event
  | [] => (s, [])
  | ev :: rest =>
    match ev with
    | .processing_complete t chunks p =>
      if chunks.isEmpty then
        let r := relayProcessEvents s filename rest
        (r.1, .processing_complete t chunks p :: r.2)
      else
        let a := addDocument s filename chunks
        let r := relayProcessEvents a.1 filename rest
        (r.1, .processing_complete t chunks p :: (a.2 ++ r.2))
    | e =>
      let r := relayProcessEvents s filename rest
      (r.1, e :: r.2)

/-- `WorkingWebSocketServer.handle_file_upload` (working_server.py:111-147).
Returns the new store state, the emitted events, and the list of files
written by `save_uploaded_file`.  Note: this variant performs no
extension or size validation. -/
def workingHandleFileUpload (ctx : ServerCtx) (s : VectorStoreState)
    (filename file_data_b64 : Option (List Char)) :
    VectorStoreState × List Event × List (List Char) :=
  match filename, file_data_b64 with
  | some fn, some b64 =>
    if fn.isEmpty || b64.isEmpty then
      (s, [Event.error "Missing filename or file data".toList], [])
    else
      let file_data := ctx.b64decode b64
      let procEvents := processFile fn (ctx.readPdfPages fn) (ctx.readTextFile fn)
        ctx.chunk_size ctx.chunk_overlap
      let r := relayProcessEvents s fn procEvents
      (r.1, Event.upload_complete fn file_data.length :: r.2, [fn])
  | _, _ => (s, [Event.error "Missing filename or file data".toList], [])

/-- `WebSocketServer.handle_file_upload` (websocket_server_8080.py:70-126):
extension allow-list check, then decode, then size check, then save and
process as in the working variant. -/
def server8080HandleFileUpload (ctx : ServerCtx) (s : VectorStoreState)
    (filename file_data_b64 : Option (List Char)) :
    VectorStoreState × List Event × List (List Char) :=
  match filename, file_data_b64 with
  | some fn, some b64 =>
    if fn.isEmpty || b64.isEmpty then
      (s, [Event.error "Missing filename or file data".toList], [])
    else if !(ctx.allowed_extensions.any (fun ext =>
        listEndsWith (fn.map Char.toLower) ext)) then
      (s, [Event.error "Unsupported file type. Allowed: ['.pdf', '.txt']".toList], [])
    else
      let file_data := ctx.b64decode b64
      if ctx.max_file_size < file_data.length then
        (s, [Event.error "File too large".toList], [])
      else
        let procEvents := processFile fn (ctx.readPdfPages fn) (ctx.readTextFile fn)
          ctx.chunk_size ctx.chunk_overlap
        let r := relayProcessEvents s fn procEvents
        (r.1, Event.upload_complete fn file_data.length :: r.2, [fn])
  | _, _ => (s, [Event.error "Missing filename or file data".toList], [])

/-! ### Remaining message handlers (src/working_server.py) -/

/-- `handle_search_query` (working_server.py:149-166). -/
def handleSearchQuery (ctx : ServerCtx) (s : VectorStoreState)
    (query : List Char) : List Event :=
  let q := pyStrip query
  if q.isEmpty then [Event.error "Empty search query".toList]
  else (vectorSearch ctx s q).2

/-- The context construction of `handle_ask_question`
(working_server.py:182-186): empty when there are no hits, otherwise the
top 3 (or fewer) hit texts joined by blank lines. -/
def askContext (hits : List SearchHit) : List Char :=
  if hits.isEmpty then []
  else pyJoin ['\n', '\n'] ((hits.take 3).map SearchHit.text)

/-- `handle_ask_question` (working_server.py:168-195): strip the question,
reject when empty, search, build the context, then stream the Gemini
response. -/
def handleAskQuestion (ctx : ServerCtx) (s : VectorStoreState)
    (question : List Char) : List Event :=
  let q := pyStrip question
  if q.isEmpty then [Event.error "Empty question".toList]
  else
    let res := vectorSearch ctx s q
    let context := askContext res.1
    res.2 ++ streamResponse q context (ctx.generate q context)

/-- `handle_stats` (working_server.py:94-109). -/
def handleStats (ctx : ServerCtx) (s : VectorStoreState) : List Event :=
  [Event.stats s.documents.length s.ntotal ctx.port]

/-- An inbound websocket message after `json.loads`, as dispatched on its
`type` tag by `handle_message` (working_server.py:54-92); `malformed`
models a message on which `json.loads` raises `JSONDecodeError`, and
`unknown` any tag outside the dispatch table. -/
inductive InMsg where
  | malformed
  | get_stats
  | test_connection
  | file_upload (filename file_data : Option (List Char))
  | search_query (query : Option (List Char))
  | ask_question (question : Option (List Char))
  | unknown (tag : List Char)
deriving DecidableEq

/-- `handle_message` (working_server.py:54-92).  Returns the new store
state, the events sent on the connection, and the files written.
`data.get("query", "")` / `data.get("question", "")` default to the empty
string. -/
def handleMessage (ctx : ServerCtx) (s : VectorStoreState) :
    InMsg → VectorStoreState × List Event × List (List Char)
  | .malformed => (s, [Event.error "Invalid JSON: ...".toList], [])
  | .get_stats => (s, handleStats ctx s, [])
  | .test_connection => (s, [Event.test_response ctx.port], [])
  | .file_upload fn fd => workingHandleFileUpload ctx s fn fd
  | .search_query q => (s, handleSearchQuery ctx s (q.getD []), [])
  | .ask_question q => (s, handleAskQuestion ctx s (q.getD []), [])
  | .unknown tag =>
    (s, [Event.error (("Unknown message type: " ++ tag.asString).toList)], [])

/-- The per-connection message loop (working_server.py:198-214): handle
each inbound message in order against the shared store state; no inbound
message closes the connection. -/
def processMessages (ctx : ServerCtx) (s : VectorStoreState) :
    List InMsg → VectorStoreState × List Event
  | [] => (s, [])
  | m :: rest =>
    let r1 := handleMessage ctx s m
    let r2 := processMessages ctx r1.1 rest
    (r2.1, r1.2.1 ++ r2.2)

/-! ### Event projections used by the claims -/

/-- The `progress` field of an event, when it has one. -/
def progressOf : Event → Option Nat
  | .processing_status _ p => some p
  | .processing_complete _ _ p => some p
  | .embedding_status _ p => some p
  | .embedding_complete p _ => some p
  | _ => none

/-- The sequence of progress values emitted by a list of events. -/
def progressValues (evs : List Event) : List Nat := evs.filterMap progressOf

/-- Whether an event belongs to the embedding/indexing stage. -/
def isEmbeddingEvent : Event → Bool
  | .embedding_status _ _ => true
  | .embedding_complete _ _ => true
  | _ => false

/-- The chunk lists carried by the `processing_complete` events of an event
sequence ("what processing yielded"). -/
def completeChunks (evs : List Event) : List (List (List Char)) :=
  evs.filterMap (fun e => match e with
    | .processing_complete _ chunks _ => some chunks
    | _ => none)

/-! ### Concrete contexts for instantiating the theorems -/

/-- A concrete server context with the config.py default values
(chunk size 500, overlap 50, threshold 0.6, top-k 5, 50 MB size limit,
the fixed extension allow-list, port 8080) and simple concrete
capabilities. -/
def testCtx : ServerCtx where
  chunk_size := 500
  chunk_overlap := 50
  similarity_threshold := 3/5
  max_search_results := 5
  max_file_size := 52428800
  allowed_extensions := [".pdf".toList, ".txt".toList]
  port := 8080
  b64decode := fun b => b.map Char.toNat
  readTextFile := fun _ => "This is a test document for the working server.".toList
  readPdfPages := fun _ => []
  nnSearch := fun _ k => (List.replicate k (7/10 : ℚ), List.replicate k (0 : Int))
  generate := fun _ _ => ["Answer".toList]

/-- `testCtx` but every text file reads as a single space, so chunking
yields zero chunks. -/
def wsOnlyCtx : ServerCtx := { testCtx with readTextFile := fun _ => " ".toList }

/-! ### Properties of the embedded Python string operations -/

theorem pySplitF_fuel_irrel (f1 : Nat) : ∀ (f2 : Nat) (s : List Char),
    s.length ≤ f1 → s.length ≤ f2 → pySplitF f1 s = pySplitF f2 s := by
  induction f1 with
  | zero =>
    intro f2 s h1 _
    match s with
    | [] => cases f2 <;> rfl
    | c :: rest => simp at h1
  | succ f1 ih =>
    intro f2 s h1 h2
    match s with
    | [] => cases f2 <;> rfl
    | c :: rest =>
      match f2 with
      | 0 => simp at h2
      | f2 + 1 =>
        simp only [List.length_cons, Nat.add_le_add_iff_right] at h1 h2
        simp only [pySplitF]
        by_cases hws : c.isWhitespace
        · simp only [hws, if_true]
          exact ih f2 rest h1 h2
        · simp only [hws, if_false]
          have hlen := (List.dropWhile_sublist (l := rest)
            (fun d => !d.isWhitespace)).length_le
          exact congrArg (List.cons _) (ih f2 _ (le_trans hlen h1) (le_trans hlen h2))

theorem pySplit_nil : pySplit [] = [] := rfl

theorem pySplit_cons (c : Char) (rest : List Char) :
    pySplit (c :: rest) =
      if c.isWhitespace then pySplit rest
      else (c :: rest.takeWhile (fun d => !d.isWhitespace)) ::
        pySplit (rest.dropWhile (fun d => !d.isWhitespace)) := by
  show pySplitF (rest.length + 1) (c :: rest) = _
  simp only [pySplitF]
  by_cases hws : c.isWhitespace
  · simp only [hws, if_true]
    rfl
  · simp only [hws, if_false]
    have hlen := (List.dropWhile_sublist (l := rest) (fun d => !d.isWhitespace)).length_le
    exact congrArg (List.cons _) (pySplitF_fuel_irrel rest.length _ _ hlen le_rfl)

theorem pySplitF_tokens (fuel : Nat) : ∀ (s : List Char), ∀ w ∈ pySplitF fuel s,
    w ≠ [] ∧ ∀ c ∈ w, c.isWhitespace = false := by
  induction fuel with
  | zero =>
    intro s w hw
    match s with
    | [] => simp [pySplitF] at hw
    | c :: t => simp [pySplitF] at hw
  | succ f ih =>
    intro s w hw
    match s with
    | [] => simp [pySplitF] at hw
    | c :: rest =>
      simp only [pySplitF] at hw
      by_cases hc : c.isWhitespace
      · rw [if_pos hc] at hw
        exact ih rest w hw
      · rw [if_neg hc] at hw
        rcases List.mem_cons.mp hw with hw1 | hw2
        · subst hw1
          refine ⟨by simp, ?_⟩
          intro d hd
          rcases List.mem_cons.mp hd with hd1 | hd2
          · subst hd1
            exact Bool.eq_false_iff.mpr hc
          · have := List.mem_takeWhile_imp hd2
            simpa using this
        · exact ih _ w hw2

theorem pySplit_tokens (s : List Char) : ∀ w ∈ pySplit s,
    w ≠ [] ∧ ∀ c ∈ w, c.isWhitespace = false :=
  pySplitF_tokens s.length s

theorem pyJoin_ne_nil (sep : List Char) (w : List Char) (ws : List (List Char))
    (h : w ≠ []) : pyJoin sep (w :: ws) ≠ [] := by
  cases ws with
  | nil => exact h
  | cons w2 ws' =>
    simp only [pyJoin]
    intro hc
    rcases List.append_eq_nil.mp hc with ⟨h1, _⟩
    exact h (List.append_eq_nil.mp h1).1

theorem pyJoin_head? (sep : List Char) (c : Char) (t : List Char) (ws : List (List Char)) :
    (pyJoin sep ((c :: t) :: ws)).head? = some c := by
  cases ws with
  | nil => rfl
  | cons w2 ws' => simp [pyJoin]

theorem pyJoin_getLast? (sep : List Char) : ∀ (ws : List (List Char)) (w : List Char),
    w ∈ ws → (∀ u ∈ ws, u ≠ []) → ws.getLast? = some w →
    (pyJoin sep ws).getLast? = w.getLast? := by
  intro ws
  induction ws with
  | nil => intro w hw; simp at hw
  | cons w1 rest ih =>
    intro w _ hne hlast
    cases rest with
    | nil =>
      simp only [List.getLast?_singleton] at hlast
      cases hlast
      rfl
    | cons w2 rest' =>
      have hlast' : (w2 :: rest').getLast? = some w := by
        rwa [List.getLast?_cons_cons] at hlast
      have hw' : w ∈ w2 :: rest' :=
        List.mem_of_getLast?_eq_some hlast'
      have hne' : ∀ u ∈ w2 :: rest', u ≠ [] := fun u hu => hne u (List.mem_cons_of_mem _ hu)
      simp only [pyJoin]
      rw [List.getLast?_append, List.getLast?_append]
      have hjoin := ih w hw' hne' hlast'
      have hjne : pyJoin sep (w2 :: rest') ≠ [] :=
        pyJoin_ne_nil sep w2 rest' (hne' w2 (List.mem_cons_self _ _))
      have hwne : w ≠ [] := hne' w hw'
      rw [hjoin]
      have : w.getLast?.isSome := List.getLast?_isSome.mpr hwne
      cases hwl : w.getLast? with
      | none => rw [hwl] at this; simp at this
      | some a => simp

theorem pyStrip_eq_self_of (s : List Char)
    (hh : ∀ c, s.head? = some c → c.isWhitespace = false)
    (hl : ∀ c, s.getLast? = some c → c.isWhitespace = false) :
    pyStrip s = s := by
  cases s with
  | nil => rfl
  | cons c t =>
    have hc : c.isWhitespace = false := hh c rfl
    unfold pyStrip
    rw [List.dropWhile_cons, hc]
    simp only [Bool.false_eq_true, if_false]
    cases hrev : (c :: t).reverse with
    | nil => simp at hrev
    | cons d r =>
      have hd : d.isWhitespace = false := by
        apply hl
        rw [← List.head?_reverse, hrev]
        rfl
      rw [List.dropWhile_cons, hd]
      simp only [Bool.false_eq_true, if_false]
      rw [← hrev, List.reverse_reverse]

/-- Stripping the single-space join of a list of non-empty, whitespace-free
tokens is the identity. -/
theorem pyStrip_join (cw : List (List Char)) (hne : ∀ w ∈ cw, w ≠ [])
    (hws : ∀ w ∈ cw, ∀ c ∈ w, c.isWhitespace = false) :
    pyStrip (pyJoin [' '] cw) = pyJoin [' '] cw := by
  cases cw with
  | nil => rfl
  | cons w rest =>
    have hwne : w ≠ [] := hne w (List.mem_cons_self _ _)
    obtain ⟨a, t, rfl⟩ : ∃ a t, w = a :: t := by
      cases w with
      | nil => exact absurd rfl hwne
      | cons a t => exact ⟨a, t, rfl⟩
    apply pyStrip_eq_self_of
    · intro c hc
      rw [pyJoin_head? [' '] a t rest] at hc
      cases hc
      exact hws (a :: t) (List.mem_cons_self _ _) a (List.mem_cons_self _ _)
    · intro c hc
      have hlast : ((a :: t) :: rest).getLast?.isSome :=
        List.getLast?_isSome.mpr (by simp)
      cases hl : ((a :: t) :: rest).getLast? with
      | none => rw [hl] at hlast; simp at hlast
      | some u =>
        have hu : u ∈ (a :: t) :: rest := List.mem_of_getLast?_eq_some hl
        rw [pyJoin_getLast? [' '] ((a :: t) :: rest) u hu hne hl] at hc
        exact hws u hu c (List.mem_of_getLast?_eq_some hc)

/-- Splitting the single-space join of a list of non-empty, whitespace-free
tokens recovers exactly the tokens. -/
theorem pySplit_join (cw : List (List Char)) (hne : ∀ w ∈ cw, w ≠ [])
    (hws : ∀ w ∈ cw, ∀ c ∈ w, c.isWhitespace = false) :
    pySplit (pyJoin [' '] cw) = cw := by
  induction cw with
  | nil => rfl
  | cons w rest ih =>
    have hwne : w ≠ [] := hne w (List.mem_cons_self _ _)
    match w, hwne with
    | a :: t, _ =>
      have ha : a.isWhitespace = false :=
        hws _ (List.mem_cons_self _ _) a (List.mem_cons_self _ _)
      have ht : ∀ c ∈ t, (fun d => !d.isWhitespace) c = true := by
        intro c hc
        simp [hws _ (List.mem_cons_self _ _) c (List.mem_cons_of_mem _ hc)]
      cases rest with
      | nil =>
        show pySplit (a :: t) = [a :: t]
        rw [pySplit_cons, if_neg (by simp [ha]),
          List.takeWhile_eq_self_iff.mpr ht,
          List.dropWhile_eq_nil_iff.mpr ht]
        rfl
      | cons w2 rest' =>
        have hne' : ∀ u ∈ w2 :: rest', u ≠ [] := fun u hu => hne u (List.mem_cons_of_mem _ hu)
        have hws' : ∀ u ∈ w2 :: rest', ∀ c ∈ u, c.isWhitespace = false :=
          fun u hu => hws u (List.mem_cons_of_mem _ hu)
        have hjoin : pyJoin [' '] ((a :: t) :: w2 :: rest') =
            a :: (t ++ ' ' :: pyJoin [' '] (w2 :: rest')) := by
          simp [pyJoin]
        have hsp : ((fun d => !d.isWhitespace) ' ') = false := by decide
        rw [hjoin, pySplit_cons, if_neg (by simp [ha])]
        rw [List.takeWhile_append_of_pos ht, List.dropWhile_append_of_pos ht]
        simp only [List.takeWhile_cons, List.dropWhile_cons, hsp,
          Bool.false_eq_true, if_false]
        rw [pySplit_cons, if_pos (by decide)]
        rw [ih hne' hws']
        simp

/-! ### Chunker lemmas -/

theorem chunkText_eq_of_lt (cs ov : Nat) (h : ov < cs) (text : List Char) :
    chunkText cs ov text =
      .ok (((List.range (((pySplit text).length + (cs - ov) - 1) / (cs - ov))).map
        (fun j => j * (cs - ov))).filterMap (windowChunk (pySplit text) cs)) := by
  have h0 : ¬((cs : Int) - ov = 0) := by omega
  have h1 : ¬((cs : Int) - ov < 0) := by omega
  have h2 : ((cs : Int) - ov).toNat = cs - ov := by omega
  simp only [chunkText, pyRange, if_neg h0, if_neg h1, h2]

theorem windowChunk_eq_some (words : List (List Char)) (cs i : Nat) (c : List Char)
    (hw : ∀ w ∈ words, w ≠ [] ∧ ∀ ch ∈ w, ch.isWhitespace = false)
    (h : windowChunk words cs i = some c) :
    (words.drop i).take cs ≠ [] ∧ c = pyJoin [' '] ((words.drop i).take cs) ∧
      pySplit c = (words.drop i).take cs := by
  have hmem : ∀ w ∈ (words.drop i).take cs, w ∈ words := fun w hw' =>
    List.mem_of_mem_drop (List.mem_of_mem_take hw')
  have hne : ∀ w ∈ (words.drop i).take cs, w ≠ [] := fun w hw' => (hw w (hmem w hw')).1
  have hws : ∀ w ∈ (words.drop i).take cs, ∀ ch ∈ w, ch.isWhitespace = false :=
    fun w hw' => (hw w (hmem w hw')).2
  simp only [windowChunk] at h
  by_cases hcwnil : (words.drop i).take cs = []
  · rw [hcwnil] at h
    simp [pyJoin, pyStrip] at h
  · have hstrip := pyStrip_join _ hne hws
    rw [hstrip] at h
    have hjne : pyJoin [' '] ((words.drop i).take cs) ≠ [] := by
      match (words.drop i).take cs, hcwnil, hne with
      | w :: ws, _, hne2 => exact pyJoin_ne_nil [' '] w ws (hne2 w (List.mem_cons_self _ _))
    rw [if_neg hjne] at h
    cases h
    exact ⟨hcwnil, rfl, pySplit_join _ hne hws⟩

theorem windowChunk_zero (words : List (List Char)) (cs : Nat) (hcs : 0 < cs)
    (hne0 : words ≠ [])
    (hw : ∀ w ∈ words, w ≠ [] ∧ ∀ ch ∈ w, ch.isWhitespace = false) :
    windowChunk words cs 0 = some (pyJoin [' '] (words.take cs)) := by
  have hmem : ∀ w ∈ words.take cs, w ∈ words := fun w hw' => List.mem_of_mem_take hw'
  have hne : ∀ w ∈ words.take cs, w ≠ [] := fun w hw' => (hw w (hmem w hw')).1
  have hws : ∀ w ∈ words.take cs, ∀ ch ∈ w, ch.isWhitespace = false :=
    fun w hw' => (hw w (hmem w hw')).2
  have hcwne : words.take cs ≠ [] := by
    match words, hne0 with
    | w :: ws, _ =>
      match cs, hcs with
      | k + 1, _ => simp [List.take_succ_cons]
  simp only [windowChunk, List.drop_zero]
  rw [pyStrip_join _ hne hws]
  have hjne : pyJoin [' '] (words.take cs) ≠ [] := by
    match words.take cs, hcwne, hne with
    | w :: ws, _, hne2 => exact pyJoin_ne_nil [' '] w ws (hne2 w (List.mem_cons_self _ _))
  rw [if_neg hjne]

/-! ### Claim theorems: chunker -/

/-- **C1** (amended): for `overlap < chunk_size`, `_chunk_text` succeeds and
returns the non-empty joined sliding windows of at most `chunk_size`
whitespace tokens; the result is non-empty whenever the text contains at
least one token; every chunk is the single-space re-join of one window and
splits back into at most `chunk_size` tokens; a text with at least one and
at most `chunk_size - overlap` tokens yields exactly one chunk; and the
output is deterministic in the input. -/
theorem chunker_windows_c1 (cs ov : Nat) (hov : ov < cs) (text : List Char) :
    ∃ chunks, chunkText cs ov text = .ok chunks ∧
      (pySplit text ≠ [] → chunks ≠ []) ∧
      (∀ c ∈ chunks, ∃ i, c = pyJoin [' '] (((pySplit text).drop i).take cs) ∧
        pySplit c = ((pySplit text).drop i).take cs ∧ (pySplit c).length ≤ cs) ∧
      (pySplit text ≠ [] → (pySplit text).length ≤ cs - ov → chunks.length = 1) ∧
      chunkText cs ov text = chunkText cs ov text := by
  have hst : 0 < cs - ov := by omega
  have hcs : 0 < cs := by omega
  have htok := pySplit_tokens text
  refine ⟨_, chunkText_eq_of_lt cs ov hov text, ?_, ?_, ?_, rfl⟩
  · -- non-empty whenever there is at least one token
    intro hw hcontra
    have hzero : windowChunk (pySplit text) cs 0 = none := by
      have h0mem : (0 : Nat) ∈ (List.range (((pySplit text).length + (cs - ov) - 1) /
          (cs - ov))).map (fun j => j * (cs - ov)) := by
        have hlen : 1 ≤ (pySplit text).length := by
          match pySplit text, hw with
          | w :: ws, _ => simp
        have hn : 1 ≤ ((pySplit text).length + (cs - ov) - 1) / (cs - ov) :=
          (Nat.one_le_div_iff hst).mpr (by omega)
        refine List.mem_map.mpr ⟨0, ?_, by simp⟩
        exact List.mem_range.mpr (by omega)
      exact (List.filterMap_eq_nil_iff.mp hcontra) 0 h0mem
    rw [windowChunk_zero (pySplit text) cs hcs hw htok] at hzero
    cases hzero
  · -- every chunk is the join of one window, of at most chunk_size tokens
    intro c hc
    obtain ⟨i, _, hf⟩ := List.mem_filterMap.mp hc
    obtain ⟨hcw, hjoin, hsplit⟩ := windowChunk_eq_some (pySplit text) cs i c htok hf
    refine ⟨i, hjoin, hsplit, ?_⟩
    rw [hsplit, List.length_take]
    exact min_le_left _ _
  · -- a text of 1 ≤ tokens ≤ chunk_size - overlap yields exactly one chunk
    intro hw hlen
    have h1 : 1 ≤ (pySplit text).length := by
      match pySplit text, hw with
      | w :: ws, _ => simp
    have hn : ((pySplit text).length + (cs - ov) - 1) / (cs - ov) = 1 :=
      Nat.div_eq_of_lt_le (by omega) (by omega)
    rw [hn]
    have hf0 := windowChunk_zero (pySplit text) cs hcs hw htok
    simp [List.range_succ, List.filterMap_cons, hf0]

/-- Witness for C1 at `chunk_size = 2`, `overlap = 0`, text `"a b c"`. -/
theorem chunker_windows_c1_witness :
    ∃ chunks, chunkText 2 0 "a b c".toList = .ok chunks ∧
      (pySplit "a b c".toList ≠ [] → chunks ≠ []) ∧
      (∀ c ∈ chunks, ∃ i, c = pyJoin [' '] (((pySplit "a b c".toList).drop i).take 2) ∧
        pySplit c = ((pySplit "a b c".toList).drop i).take 2 ∧ (pySplit c).length ≤ 2) ∧
      (pySplit "a b c".toList ≠ [] → (pySplit "a b c".toList).length ≤ 2 - 0 →
        chunks.length = 1) ∧
      chunkText 2 0 "a b c".toList = chunkText 2 0 "a b c".toList :=
  chunker_windows_c1 2 0 (by decide) "a b c".toList

/-- **C1 counterexample**: with `chunk_size = 3`, `overlap = 2` (a valid
configuration, `overlap < chunk_size`), the two-token text `"a b"` has
fewer than `chunk_size` tokens yet yields TWO chunks, and the non-empty
whitespace-only text `" "` yields an empty chunk sequence — refuting
"a text with fewer than chunk_size tokens yields exactly one chunk" and
"the result is non-empty when T is non-empty" as stated. -/
theorem chunker_c1_counterexample :
    ((2 : Nat) < 3 ∧ (pySplit "a b".toList).length = 2 ∧
      chunkText 3 2 "a b".toList = .ok ["a b".toList, "b".toList]) ∧
    (" ".toList ≠ [] ∧ chunkText 3 2 " ".toList = .ok []) := by decide

/-- **C2** (code bug): an `overlap > chunk_size` configuration is not
rejected — chunking silently succeeds with an empty chunk list for every
text (Python `range` with a negative step is empty), and
`overlap = chunk_size` raises `ValueError` from inside the chunking loop
header (reported by the callers' generic exception handlers), not by any
configuration check before the chunking attempt; `config.py` performs no
validation of `CHUNK_SIZE`/`CHUNK_OVERLAP` at all. -/
theorem chunker_c2_overlap_not_rejected :
    chunkText 2 3 "a b c".toList = .ok [] ∧
    chunkText 2 2 "a b c".toList =
      .error "ValueError: range() arg 3 must not be zero" := by decide

/-! ### Vector store lemmas -/

theorem searchFilter_length_le (docs : List IndexMeta) (th : ℚ) :
    ∀ l : List (ℚ × Int), (searchFilter docs th l).length ≤ l.length := by
  intro l
  induction l with
  | nil => simp [searchFilter]
  | cons p rest ih =>
    obtain ⟨sc, idx⟩ := p
    simp only [searchFilter]
    by_cases h : 0 ≤ idx ∧ idx.toNat < docs.length ∧ th ≤ sc
    · rw [dif_pos h]
      simpa using ih
    · rw [dif_neg h]
      exact le_trans ih (by simp)

theorem searchFilter_mem (docs : List IndexMeta) (th : ℚ) :
    ∀ (l : List (ℚ × Int)) (h : SearchHit), h ∈ searchFilter docs th l →
      th ≤ h.score ∧ ∃ i : Nat, docs[i]? = some ⟨h.filename, h.chunk_id, h.text⟩ := by
  intro l
  induction l with
  | nil => intro h hmem; simp [searchFilter] at hmem
  | cons p rest ih =>
    obtain ⟨sc, idx⟩ := p
    intro h hmem
    simp only [searchFilter] at hmem
    by_cases hcond : 0 ≤ idx ∧ idx.toNat < docs.length ∧ th ≤ sc
    · rw [dif_pos hcond] at hmem
      rcases List.mem_cons.mp hmem with h1 | h2
      · subst h1
        refine ⟨hcond.2.2, idx.toNat, ?_⟩
        rw [List.getElem?_eq_getElem hcond.2.1]
        simp
      · exact ih h h2
    · rw [dif_neg hcond] at hmem
      exact ih h hmem

/-! ### Claim theorems: vector store -/

/-- **C3**: after a successful `add_document(filename, chunks)` on a store
whose vector count equals its metadata entry count, the two counts are
again equal and both have increased by exactly `len(chunks)`. -/
theorem add_document_counts_c3 (s : VectorStoreState) (filename : List Char)
    (chunks : List (List Char)) (hinv : s.ntotal = s.documents.length)
    (hne : chunks ≠ []) :
    (addDocument s filename chunks).1.ntotal =
        (addDocument s filename chunks).1.documents.length ∧
    (addDocument s filename chunks).1.ntotal = s.ntotal + chunks.length ∧
    (addDocument s filename chunks).1.documents.length =
        s.documents.length + chunks.length := by
  have h1 : chunks.isEmpty = false := by
    cases chunks with
    | nil => exact absurd rfl hne
    | cons a l => rfl
  simp [addDocument, h1, hinv]

/-- Witness for C3: adding one chunk to an empty, consistent store. -/
theorem add_document_counts_c3_witness :
    (addDocument ⟨0, []⟩ "f.txt".toList ["hello world".toList]).1.ntotal =
        (addDocument ⟨0, []⟩ "f.txt".toList ["hello world".toList]).1.documents.length ∧
    (addDocument ⟨0, []⟩ "f.txt".toList ["hello world".toList]).1.ntotal =
        (0 : Nat) + ["hello world".toList].length ∧
    (addDocument ⟨0, []⟩ "f.txt".toList ["hello world".toList]).1.documents.length =
        (List.length (α := IndexMeta) []) + ["hello world".toList].length :=
  add_document_counts_c3 ⟨0, []⟩ "f.txt".toList ["hello world".toList] rfl (by decide)

/-- **C4**: `search(q, k)`, given FAISS output of the requested length
`min(k, entry_count)`, returns at most `min(k, entry_count)` hits, every
hit scores at least the threshold, every hit's index position carries a
corresponding metadata entry, and a candidate with a negative index
position is dropped by the result filter. -/
theorem search_threshold_c4 (s : VectorStoreState) (threshold : ℚ)
    (query : List Char) (k : Nat) (scores : List ℚ) (indices : List Int)
    (hs : scores.length = min k s.documents.length)
    (hi : indices.length = min k s.documents.length) :
    (searchWith s threshold query scores indices).1.length ≤ min k s.documents.length ∧
    (∀ h ∈ (searchWith s threshold query scores indices).1, threshold ≤ h.score) ∧
    (∀ h ∈ (searchWith s threshold query scores indices).1,
      ∃ i : Nat, s.documents[i]? = some ⟨h.filename, h.chunk_id, h.text⟩) ∧
    (∀ (sc : ℚ) (idx : Int) (rest : List (ℚ × Int)), idx < 0 →
      searchFilter s.documents threshold ((sc, idx) :: rest) =
        searchFilter s.documents threshold rest) := by
  refine ⟨?_, ?_, ?_, ?_⟩
  · by_cases hdoc : s.documents.length = 0
    · simp [searchWith, hdoc]
    · simp only [searchWith, if_neg hdoc]
      have hlen := searchFilter_length_le s.documents threshold (scores.zip indices)
      rw [List.length_zip, hs, hi] at hlen
      simpa using hlen
  · intro h hmem
    by_cases hdoc : s.documents.length = 0
    · simp [searchWith, hdoc] at hmem
    · simp only [searchWith, if_neg hdoc] at hmem
      exact (searchFilter_mem s.documents threshold (scores.zip indices) h hmem).1
  · intro h hmem
    by_cases hdoc : s.documents.length = 0
    · simp [searchWith, hdoc] at hmem
    · simp only [searchWith, if_neg hdoc] at hmem
      exact (searchFilter_mem s.documents threshold (scores.zip indices) h hmem).2
  · intro sc idx rest hneg
    simp only [searchFilter]
    rw [dif_neg (by omega)]

/-- Witness for C4: a one-entry store, threshold 1/2, one candidate of
score 3/4 at index 0. -/
theorem search_threshold_c4_witness :
    (searchWith ⟨1, [⟨"f.txt".toList, 0, "hello".toList⟩]⟩ (1/2) "q".toList
        [(3/4 : ℚ)] [(0 : Int)]).1.length ≤
      min 5 [(⟨"f.txt".toList, 0, "hello".toList⟩ : IndexMeta)].length ∧
    (∀ h ∈ (searchWith ⟨1, [⟨"f.txt".toList, 0, "hello".toList⟩]⟩ (1/2) "q".toList
        [(3/4 : ℚ)] [(0 : Int)]).1, (1/2 : ℚ) ≤ h.score) ∧
    (∀ h ∈ (searchWith ⟨1, [⟨"f.txt".toList, 0, "hello".toList⟩]⟩ (1/2) "q".toList
        [(3/4 : ℚ)] [(0 : Int)]).1,
      ∃ i : Nat, [(⟨"f.txt".toList, 0, "hello".toList⟩ : IndexMeta)][i]? =
        some ⟨h.filename, h.chunk_id, h.text⟩) ∧
    (∀ (sc : ℚ) (idx : Int) (rest : List (ℚ × Int)), idx < 0 →
      searchFilter [(⟨"f.txt".toList, 0, "hello".toList⟩ : IndexMeta)] (1/2)
          ((sc, idx) :: rest) =
        searchFilter [(⟨"f.txt".toList, 0, "hello".toList⟩ : IndexMeta)] (1/2) rest) :=
  search_threshold_c4 ⟨1, [⟨"f.txt".toList, 0, "hello".toList⟩]⟩ (1/2) "q".toList 5
    [(3/4 : ℚ)] [(0 : Int)] (by decide) (by decide)

/-- **C6**: when the persisted index file or its paired metadata cannot be
read as a valid index structure (the external read raises), `load_index`
recovers by reinitializing a fresh empty index — vector count and metadata
entry count both zero — rather than propagating the failure. -/
theorem load_index_corrupt_recovers_c6 :
    ∀ e1 e2 : Bool, load_index e1 e2 none = create_index ∧
      (load_index e1 e2 none).ntotal = 0 ∧
      (load_index e1 e2 none).documents.length = 0 ∧
      get_stats (load_index e1 e2 none) = (0, 0) := by decide

/-! ### Claim theorems: question answering and message handling -/

theorem streamResponse_getLast? (q c : List Char) (parts : List (List Char)) :
    (streamResponse q c parts).getLast? =
      some (Event.ai_complete ((parts.filter (fun x => !x.isEmpty)).flatten) q
        (!c.isEmpty)) := by
  simp only [streamResponse]
  exact List.getLast?_concat
    (Event.ai_status q :: List.map Event.ai_chunk (parts.filter (fun x => !x.isEmpty)))

/-- **C5**: the question-answering context is the blank-line join of the
top 3 (or fewer) retrieved chunk texts, and empty when there are no hits;
with no documents indexed, the search returns no hits, the generation
capability is still invoked with empty context, and the terminal
`ai_complete` event reports `context_used = false`. -/
theorem ask_question_context_c5 (ctx : ServerCtx) (s : VectorStoreState)
    (question : List Char) (hq : pyStrip question ≠ []) :
    (∀ hits : List SearchHit, hits ≠ [] →
      askContext hits = pyJoin ['\n', '\n'] ((hits.take 3).map SearchHit.text)) ∧
    askContext [] = [] ∧
    (s.documents = [] →
      handleAskQuestion ctx s question =
        Event.search_results_no_docs ::
          streamResponse (pyStrip question) [] (ctx.generate (pyStrip question) []) ∧
      (streamResponse (pyStrip question) [] (ctx.generate (pyStrip question) [])).getLast? =
        some (Event.ai_complete
          (((ctx.generate (pyStrip question) []).filter (fun x => !x.isEmpty)).flatten)
          (pyStrip question) false)) := by
  have hqe : (pyStrip question).isEmpty = false := by
    cases h : pyStrip question with
    | nil => exact absurd h hq
    | cons a l => rfl
  refine ⟨?_, rfl, ?_⟩
  · intro hits hne
    have : hits.isEmpty = false := by
      cases hits with
      | nil => exact absurd rfl hne
      | cons a l => rfl
    simp [askContext, this]
  · intro hdoc
    constructor
    · simp [handleAskQuestion, hqe, vectorSearch, searchWith, hdoc, askContext]
    · rw [streamResponse_getLast?]
      rfl

/-- Witness for C5: asking `"hi"` against an empty store under `testCtx`. -/
theorem ask_question_context_c5_witness :
    (∀ hits : List SearchHit, hits ≠ [] →
      askContext hits = pyJoin ['\n', '\n'] ((hits.take 3).map SearchHit.text)) ∧
    askContext [] = [] ∧
    ((⟨0, []⟩ : VectorStoreState).documents = [] →
      handleAskQuestion testCtx ⟨0, []⟩ "hi".toList =
        Event.search_results_no_docs ::
          streamResponse (pyStrip "hi".toList) []
            (testCtx.generate (pyStrip "hi".toList) []) ∧
      (streamResponse (pyStrip "hi".toList) []
          (testCtx.generate (pyStrip "hi".toList) [])).getLast? =
        some (Event.ai_complete
          (((testCtx.generate (pyStrip "hi".toList) []).filter
            (fun x => !x.isEmpty)).flatten)
          (pyStrip "hi".toList) false)) :=
  ask_question_context_c5 testCtx ⟨0, []⟩ "hi".toList (by decide)

/-- **C8**: an unknown message tag produces a single error event and a
malformed (non-JSON) message produces a single error event, neither
changing the store state nor closing the connection: the message loop
processes all subsequent messages exactly as it would have without the
bad message. -/
theorem unknown_message_error_c8 (ctx : ServerCtx) (s : VectorStoreState)
    (tag : List Char) (rest : List InMsg) :
    handleMessage ctx s (.unknown tag) =
      (s, [Event.error (("Unknown message type: " ++ tag.asString).toList)], []) ∧
    handleMessage ctx s .malformed =
      (s, [Event.error "Invalid JSON: ...".toList], []) ∧
    processMessages ctx s (.unknown tag :: rest) =
      ((processMessages ctx s rest).1,
        Event.error (("Unknown message type: " ++ tag.asString).toList) ::
          (processMessages ctx s rest).2) ∧
    processMessages ctx s (.malformed :: rest) =
      ((processMessages ctx s rest).1,
        Event.error "Invalid JSON: ...".toList :: (processMessages ctx s rest).2) := by
  refine ⟨rfl, rfl, ?_, ?_⟩ <;> simp [processMessages, handleMessage]

/-! ### Upload handler lemmas and claims -/

theorem relayProcessEvents_no_chunks (s : VectorStoreState) (fn : List Char) :
    ∀ evs : List Event,
      (∀ t chunks p, Event.processing_complete t chunks p ∈ evs → chunks = []) →
      relayProcessEvents s fn evs = (s, evs) := by
  intro evs
  induction evs with
  | nil => intro _; rfl
  | cons ev rest ih =>
    intro h
    have hrest := ih (fun t' c' p' hm => h t' c' p' (List.mem_cons_of_mem _ hm))
    cases ev
    case processing_complete t chunks p =>
      have hc : chunks = [] := h t chunks p (List.mem_cons_self _ _)
      subst hc
      simp [relayProcessEvents, hrest]
    all_goals simp [relayProcessEvents, hrest]

/-- `process_file` only ever emits processing-stage events, never
embedding-stage events, whatever the file type and whatever chunking
returns. -/
theorem processFile_no_embedding (fn : List Char) (pages : List (List Char))
    (txt : List Char) (cs ov : Nat) :
    ∀ e ∈ processFile fn pages txt cs ov, isEmbeddingEvent e = false := by
  intro e he
  simp only [processFile, List.mem_cons] at he
  rcases he with rfl | he
  · rfl
  by_cases hpdf : listEndsWith fn ".pdf".toList = true
  · rw [if_pos hpdf] at he
    cases hres : chunkText cs ov ((pages.map (fun pg => pg ++ ['\n'])).flatten) with
    | error err =>
      simp only [processPdf, hres, List.mem_cons, List.mem_append,
        List.not_mem_nil, or_false] at he
      rcases he with rfl | rfl | he | rfl | rfl
      · rfl
      · rfl
      · obtain ⟨p, _, rfl⟩ := List.mem_map.mp he
        rfl
      · rfl
      · rfl
    | ok chs =>
      simp only [processPdf, hres, List.mem_cons, List.mem_append,
        List.not_mem_nil, or_false] at he
      rcases he with rfl | rfl | he | rfl | rfl | rfl
      · rfl
      · rfl
      · obtain ⟨p, _, rfl⟩ := List.mem_map.mp he
        rfl
      · rfl
      · rfl
      · rfl
  · rw [if_neg hpdf] at he
    by_cases htxt : listEndsWith fn ".txt".toList = true
    · rw [if_pos htxt] at he
      cases hres : chunkText cs ov txt with
      | error err =>
        simp only [processText, hres, List.mem_cons, List.not_mem_nil, or_false] at he
        rcases he with rfl | rfl | rfl
        · rfl
        · rfl
        · rfl
      | ok chs =>
        simp only [processText, hres, List.mem_cons, List.not_mem_nil, or_false] at he
        rcases he with rfl | rfl | rfl | rfl
        · rfl
        · rfl
        · rfl
        · rfl
    · rw [if_neg htxt] at he
      simp only [List.mem_cons, List.not_mem_nil, or_false] at he
      subst he
      rfl

/-- **C10**: for every uploaded document whose processing yields zero
chunks (every `processing_complete` event carries an empty chunk list —
any file type, any content), neither upload handler ever invokes the
indexing step: both the working server and the 8080 server leave the
store state unchanged and emit no embedding events. -/
theorem zero_chunks_no_indexing_c10 (ctx : ServerCtx) (s : VectorStoreState)
    (fn b64 : List Char)
    (hzero : ∀ chunks ∈ completeChunks (processFile fn (ctx.readPdfPages fn)
      (ctx.readTextFile fn) ctx.chunk_size ctx.chunk_overlap), chunks = []) :
    (workingHandleFileUpload ctx s (some fn) (some b64)).1 = s ∧
    (∀ e ∈ (workingHandleFileUpload ctx s (some fn) (some b64)).2.1,
      isEmbeddingEvent e = false) ∧
    (server8080HandleFileUpload ctx s (some fn) (some b64)).1 = s ∧
    (∀ e ∈ (server8080HandleFileUpload ctx s (some fn) (some b64)).2.1,
      isEmbeddingEvent e = false) := by
  have hpre : ∀ t chunks p, Event.processing_complete t chunks p ∈
      processFile fn (ctx.readPdfPages fn) (ctx.readTextFile fn)
        ctx.chunk_size ctx.chunk_overlap → chunks = [] :=
    fun t chunks p hm => hzero chunks (List.mem_filterMap.mpr
      ⟨Event.processing_complete t chunks p, hm, rfl⟩)
  have hrelay := relayProcessEvents_no_chunks s fn
    (processFile fn (ctx.readPdfPages fn) (ctx.readTextFile fn)
      ctx.chunk_size ctx.chunk_overlap) hpre
  have hnoemb := processFile_no_embedding fn (ctx.readPdfPages fn)
    (ctx.readTextFile fn) ctx.chunk_size ctx.chunk_overlap
  have hwork : workingHandleFileUpload ctx s (some fn) (some b64) =
        (s, Event.upload_complete fn (ctx.b64decode b64).length ::
          processFile fn (ctx.readPdfPages fn) (ctx.readTextFile fn)
            ctx.chunk_size ctx.chunk_overlap, [fn]) ∨
      workingHandleFileUpload ctx s (some fn) (some b64) =
        (s, [Event.error "Missing filename or file data".toList], []) := by
    by_cases hcond : (fn.isEmpty || b64.isEmpty) = true
    · right
      simp [workingHandleFileUpload, hcond]
    · left
      have hcond' : (fn.isEmpty || b64.isEmpty) = false := by
        simpa using hcond
      simp [workingHandleFileUpload, hcond', hrelay]
  have h8080 : server8080HandleFileUpload ctx s (some fn) (some b64) =
        (s, Event.upload_complete fn (ctx.b64decode b64).length ::
          processFile fn (ctx.readPdfPages fn) (ctx.readTextFile fn)
            ctx.chunk_size ctx.chunk_overlap, [fn]) ∨
      ∃ msg, server8080HandleFileUpload ctx s (some fn) (some b64) =
        (s, [Event.error msg], []) := by
    by_cases hcond : (fn.isEmpty || b64.isEmpty) = true
    · right
      exact ⟨"Missing filename or file data".toList,
        by simp [server8080HandleFileUpload, hcond]⟩
    · have hcond' : (fn.isEmpty || b64.isEmpty) = false := by
        simpa using hcond
      by_cases hext : (!(ctx.allowed_extensions.any (fun ext =>
          listEndsWith (fn.map Char.toLower) ext))) = true
      · right
        exact ⟨"Unsupported file type. Allowed: ['.pdf', '.txt']".toList,
          by simp [server8080HandleFileUpload, hcond', hext]⟩
      · have hext' : (!(ctx.allowed_extensions.any (fun ext =>
            listEndsWith (fn.map Char.toLower) ext))) = false := by
          simpa using hext
        by_cases hsize : ctx.max_file_size < (ctx.b64decode b64).length
        · right
          exact ⟨"File too large".toList,
            by simp [server8080HandleFileUpload, hcond', hext', hsize]⟩
        · left
          simp [server8080HandleFileUpload, hcond', hext', hsize, hrelay]
  refine ⟨?_, ?_, ?_, ?_⟩
  · rcases hwork with h | h <;> rw [h]
  · intro e he
    rcases hwork with h | h <;> rw [h] at he
    · rcases List.mem_cons.mp he with rfl | he2
      · rfl
      · exact hnoemb e he2
    · simp only [List.mem_cons, List.not_mem_nil, or_false] at he
      subst he
      rfl
  · rcases h8080 with h | ⟨msg, h⟩ <;> rw [h]
  · intro e he
    rcases h8080 with h | ⟨msg, h⟩ <;> rw [h] at he
    · rcases List.mem_cons.mp he with rfl | he2
      · rfl
      · exact hnoemb e he2
    · simp only [List.mem_cons, List.not_mem_nil, or_false] at he
      subst he
      rfl

/-- Witness for C10: uploading `"doc.txt"` under `wsOnlyCtx`, where the
file content is a single space and chunking yields zero chunks. -/
theorem zero_chunks_no_indexing_c10_witness :
    (workingHandleFileUpload wsOnlyCtx ⟨0, []⟩
      (some "doc.txt".toList) (some "IA==".toList)).1 = ⟨0, []⟩ ∧
    (∀ e ∈ (workingHandleFileUpload wsOnlyCtx ⟨0, []⟩
        (some "doc.txt".toList) (some "IA==".toList)).2.1,
      isEmbeddingEvent e = false) ∧
    (server8080HandleFileUpload wsOnlyCtx ⟨0, []⟩
      (some "doc.txt".toList) (some "IA==".toList)).1 = ⟨0, []⟩ ∧
    (∀ e ∈ (server8080HandleFileUpload wsOnlyCtx ⟨0, []⟩
        (some "doc.txt".toList) (some "IA==".toList)).2.1,
      isEmbeddingEvent e = false) :=
  zero_chunks_no_indexing_c10 wsOnlyCtx ⟨0, []⟩ "doc.txt".toList "IA==".toList
    (by decide)

/-- **C7** (code bug): the working server's file-upload handler performs no
extension or size validation — an upload with the disallowed filename
`mal.exe` is decoded, saved to disk, and handed to the document processor
(which only afterwards emits an unsupported-file-type error), so the
rejection does not happen before processing and the file IS saved; the
8080 variant shows the intended behavior: a single error event, no file
saved, state unchanged. -/
theorem upload_validation_c7_bug :
    ((workingHandleFileUpload testCtx ⟨0, []⟩ (some "mal.exe".toList)
        (some "QQ==".toList)).2.2 = ["mal.exe".toList] ∧
      (workingHandleFileUpload testCtx ⟨0, []⟩ (some "mal.exe".toList)
          (some "QQ==".toList)).2.1 =
        [Event.upload_complete "mal.exe".toList 4,
         Event.processing_status "Starting document processing".toList 0,
         Event.error "Unsupported file type".toList]) ∧
    server8080HandleFileUpload testCtx ⟨0, []⟩ (some "mal.exe".toList)
        (some "QQ==".toList) =
      (⟨0, []⟩,
        [Event.error "Unsupported file type. Allowed: ['.pdf', '.txt']".toList],
        []) := by decide

/-! ### Progress sequence lemmas -/

theorem filterMap_progressOf_map (l : List Nat) (g : Nat → Event) (q : Nat → Nat)
    (h : ∀ p, progressOf (g p) = some (q p)) :
    List.filterMap progressOf (l.map g) = l.map q := by
  induction l with
  | nil => rfl
  | cons a t ih => simp [List.filterMap_cons, h, ih]

theorem progressValues_processText (content : List Char) (cs ov : Nat)
    (chs : List (List Char)) (hok : chunkText cs ov content = .ok chs) :
    progressValues (processText content cs ov) = [30, 60, 80, 100] := by
  simp [processText, hok, progressValues, List.filterMap_cons, progressOf]

theorem progressValues_processPdf (pages : List (List Char)) (cs ov : Nat)
    (chs : List (List Char))
    (hok : chunkText cs ov ((pages.map (fun pg => pg ++ ['\n'])).flatten) = .ok chs) :
    progressValues (processPdf pages cs ov) =
      10 :: 20 :: (((List.range pages.length).map
        (fun p => 20 + ((p+1) * 50) / pages.length)) ++ [70, 80, 100]) := by
  simp only [processPdf, hok, progressValues, List.filterMap_cons, progressOf,
    List.filterMap_append]
  rw [filterMap_progressOf_map (List.range pages.length)
    (fun p => Event.processing_status
      (("Extracting text from page " ++ Nat.repr (p+1) ++ "/" ++
        Nat.repr pages.length).toList)
      (20 + ((p+1) * 50) / pages.length))
    (fun p => 20 + ((p+1) * 50) / pages.length) (fun p => rfl)]
  simp [List.filterMap_cons, progressOf]

theorem progressValues_addDocument (s : VectorStoreState) (fn : List Char)
    (chunks : List (List Char)) (hne : chunks ≠ []) :
    progressValues (addDocument s fn chunks).2 =
      0 :: (((List.range chunks.length).map
        (fun i => ((i+1) * 80) / chunks.length)) ++ [100]) := by
  have h1 : chunks.isEmpty = false := by
    cases chunks with
    | nil => exact absurd rfl hne
    | cons a l => rfl
  simp only [addDocument, h1, Bool.false_eq_true, if_false, progressValues,
    List.filterMap_cons, progressOf, List.filterMap_append]
  rw [filterMap_progressOf_map (List.range chunks.length)
    (fun i => Event.embedding_status
      (("Processing chunk " ++ Nat.repr (i+1) ++ "/" ++
        Nat.repr chunks.length).toList)
      (((i+1) * 80) / chunks.length))
    (fun i => ((i+1) * 80) / chunks.length) (fun p => rfl)]
  simp [List.filterMap_cons, progressOf]

theorem div_scale_le (a n b : Nat) (ha : a ≤ n) (hn : 0 < n) : a * b / n ≤ b := by
  have h1 : a * b ≤ n * b := Nat.mul_le_mul_right b ha
  have h2 : a * b / n ≤ n * b / n := Nat.div_le_div_right h1
  rwa [Nat.mul_div_cancel_left b hn] at h2

theorem div_scale_mono (a b c n : Nat) (h : a ≤ b) : a * c / n ≤ b * c / n :=
  Nat.div_le_div_right (Nat.mul_le_mul_right c h)

/-! ### Claim theorem: progress monotonicity -/

/-- **C9**: within one logical operation the emitted progress values are
non-decreasing and end at exactly 100 on success: shown for a text-file
processing run, a PDF processing run (any page count), and an embedding
run over a non-empty chunk list. -/
theorem progress_monotone_c9 (content : List Char) (pages : List (List Char))
    (cs ov : Nat) (hov : ov < cs) (s : VectorStoreState) (fn : List Char)
    (chunks : List (List Char)) (hch : chunks ≠ []) :
    (List.Pairwise (· ≤ ·) (progressValues (processText content cs ov)) ∧
      (progressValues (processText content cs ov)).getLast? = some 100) ∧
    (List.Pairwise (· ≤ ·) (progressValues (processPdf pages cs ov)) ∧
      (progressValues (processPdf pages cs ov)).getLast? = some 100) ∧
    (List.Pairwise (· ≤ ·) (progressValues (addDocument s fn chunks).2) ∧
      (progressValues (addDocument s fn chunks).2).getLast? = some 100) := by
  obtain ⟨chsT, hokT⟩ : ∃ c, chunkText cs ov content = .ok c :=
    ⟨_, chunkText_eq_of_lt cs ov hov content⟩
  obtain ⟨chsP, hokP⟩ : ∃ c,
      chunkText cs ov ((pages.map (fun pg => pg ++ ['\n'])).flatten) = .ok c :=
    ⟨_, chunkText_eq_of_lt cs ov hov _⟩
  refine ⟨?_, ?_, ?_⟩
  · rw [progressValues_processText content cs ov chsT hokT]
    exact ⟨by decide, rfl⟩
  · rw [progressValues_processPdf pages cs ov chsP hokP]
    have hmapBound : ∀ x ∈ (List.range pages.length).map
        (fun p => 20 + ((p+1) * 50) / pages.length), 20 ≤ x ∧ x ≤ 70 := by
      intro x hx
      obtain ⟨p, hp, rfl⟩ := List.mem_map.mp hx
      have hplt : p < pages.length := List.mem_range.mp hp
      have hub : (p+1) * 50 / pages.length ≤ 50 :=
        div_scale_le (p+1) pages.length 50 (by omega) (by omega)
      exact ⟨Nat.le_add_right 20 _, Nat.add_le_add_left hub 20⟩
    have hmapPW : List.Pairwise (· ≤ ·) ((List.range pages.length).map
        (fun p => 20 + ((p+1) * 50) / pages.length)) := by
      refine (List.pairwise_lt_range pages.length).map _ ?_
      intro a b hab
      exact Nat.add_le_add_left (div_scale_mono (a+1) (b+1) 50 pages.length (by omega)) 20
    have happ : List.Pairwise (· ≤ ·) ((List.range pages.length).map
        (fun p => 20 + ((p+1) * 50) / pages.length) ++ [70, 80, 100]) := by
      refine List.pairwise_append.mpr ⟨hmapPW, by decide, ?_⟩
      intro x hx y hy
      have h70 : (70 : Nat) ≤ y := by
        simp only [List.mem_cons] at hy
        rcases hy with rfl | rfl | rfl | hy
        · exact le_refl 70
        · omega
        · omega
        · exact absurd hy (List.not_mem_nil _)
      have := (hmapBound x hx).2
      omega
    constructor
    · refine List.Pairwise.cons ?_ (List.Pairwise.cons ?_ happ)
      · intro b hb
        simp only [List.mem_cons, List.mem_append, List.not_mem_nil, or_false] at hb
        rcases hb with rfl | hb | rfl | rfl | rfl
        · omega
        · have := (hmapBound b hb).1
          omega
        · omega
        · omega
        · omega
      · intro b hb
        simp only [List.mem_cons, List.mem_append, List.not_mem_nil, or_false] at hb
        rcases hb with hb | rfl | rfl | rfl
        · exact (hmapBound b hb).1
        · omega
        · omega
        · omega
    · show ((10 :: 20 :: (List.range pages.length).map
          (fun p => 20 + ((p+1) * 50) / pages.length)) ++ [70, 80, 100]).getLast? =
          some 100
      rw [List.getLast?_append]
      rfl
  · rw [progressValues_addDocument s fn chunks hch]
    have hn : 0 < chunks.length := List.length_pos.mpr hch
    have hmapBound : ∀ x ∈ (List.range chunks.length).map
        (fun i => ((i+1) * 80) / chunks.length), x ≤ 80 := by
      intro x hx
      obtain ⟨i, hi, rfl⟩ := List.mem_map.mp hx
      have hilt : i < chunks.length := List.mem_range.mp hi
      exact div_scale_le (i+1) chunks.length 80 (by omega) hn
    have hmapPW : List.Pairwise (· ≤ ·) ((List.range chunks.length).map
        (fun i => ((i+1) * 80) / chunks.length)) := by
      refine (List.pairwise_lt_range chunks.length).map _ ?_
      intro a b hab
      exact div_scale_mono (a+1) (b+1) 80 chunks.length (by omega)
    constructor
    · refine List.Pairwise.cons ?_ ?_
      · intro b _
        omega
      · refine List.pairwise_append.mpr ⟨hmapPW, by decide, ?_⟩
        intro x hx y hy
        simp only [List.mem_singleton] at hy
        subst hy
        have := hmapBound x hx
        omega
    · exact List.getLast?_concat
        (0 :: (List.range chunks.length).map (fun i => ((i+1) * 80) / chunks.length))

/-- Witness for C9: a text run, a one-page PDF run and a one-chunk
embedding run under the default chunking configuration. -/
theorem progress_monotone_c9_witness :
    (List.Pairwise (· ≤ ·) (progressValues (processText "hello world".toList 500 50)) ∧
      (progressValues (processText "hello world".toList 500 50)).getLast? = some 100) ∧
    (List.Pairwise (· ≤ ·) (progressValues (processPdf ["page one".toList] 500 50)) ∧
      (progressValues (processPdf ["page one".toList] 500 50)).getLast? = some 100) ∧
    (List.Pairwise (· ≤ ·)
        (progressValues (addDocument ⟨0, []⟩ "f.txt".toList ["hi".toList]).2) ∧
      (progressValues (addDocument ⟨0, []⟩ "f.txt".toList ["hi".toList]).2).getLast? =
        some 100) :=
  progress_monotone_c9 "hello world".toList ["page one".toList] 500 50 (by decide)
    ⟨0, []⟩ "f.txt".toList ["hi".toList] (by decide)

end DocQA
